import Mathlib

/-!
Shallow embedding of `src/pnr/routed-to-world/convert.py` (the mcpnr
routed-to-world conversion tool) and proofs about its behavior.

Python strings are modelled as `List Char`, Python dicts as association
lists with Python assignment semantics (`dictSet`: update-in-place if the
key is present, append otherwise), and the Amulet world / chunk objects as
explicit state records threaded through the operations, with call logs for
the externally observable calls (`put_chunk`, `save`, world-level
`set_block`).
-/

namespace Convert

/-- JSON-like values that appear in palette `properties` maps and voxel
`nbt` maps: nested objects, strings, booleans, and other scalars (which
the source treats as small integers). -/
inductive JSONVal : Type where
  | obj : List (String × JSONVal) → JSONVal
  | str : String → JSONVal
  | bool : Bool → JSONVal
  | num : Int → JSONVal

/-- The NBT tag variants used by `convert.py`: `TAG_Compound`,
`TAG_String`, `TAG_Byte` (8-bit signed) and `TAG_Int` (32-bit signed). -/
inductive NBT : Type where
  | compound : List (String × NBT) → NBT
  | string : String → NBT
  | byte : Int → NBT
  | int : Int → NBT

/-- Python dict lookup `d[k]` (as an `Option`): first binding of `k`. -/
def dictGet {κ α : Type} [DecidableEq κ] (d : List (κ × α)) (k : κ) : Option α :=
  match d with
  | [] => none
  | (k0, v0) :: rest => if k0 = k then some v0 else dictGet rest k

/-- Python dict assignment `d[k] = v`: update the existing binding in
place when `k` is present, otherwise append a new binding. -/
def dictSet {κ α : Type} [DecidableEq κ] (d : List (κ × α)) (k : κ) (v : α) : List (κ × α) :=
  match d with
  | [] => [(k, v)]
  | (k0, v0) :: rest => if k0 = k then (k, v) :: rest else (k0, v0) :: dictSet rest k v

mutual

/-- The per-value dispatch of `json_to_nbt` (convert.py lines 84-95): a
dict becomes a `TAG_Compound` of the recursively decoded entries, a str a
`TAG_String`, a bool a `TAG_String` holding `"true"` or `"false"`, and
anything else a `TAG_Byte`. -/
def jsonValToTag : JSONVal → NBT
  | .obj o => .compound (json_to_nbt o)
  | .str s => .string s
  | .bool b => if b then .string "true" else .string "false"
  | .num n => .byte n
termination_by v => (sizeOf v, 0)
decreasing_by simp_wf; omega

/-- Function `json_to_nbt` (convert.py lines 82-96): builds the `properties` dict
by assigning `properties[k]` for each `(k, v)` of the input in order. -/
def json_to_nbt : List (String × JSONVal) → List (String × NBT)
  | data => jsonToNbtLoop [] data
termination_by d => (sizeOf d, 1)
decreasing_by simp_wf; omega

/-- The `for k, v in data.items()` loop of `json_to_nbt`, with
`properties` as the accumulator. -/
def jsonToNbtLoop : List (String × NBT) → List (String × JSONVal) → List (String × NBT)
  | props, [] => props
  | props, (k, v) :: rest => jsonToNbtLoop (dictSet props k (jsonValToTag v)) rest
termination_by _ d => (sizeOf d, 0)
decreasing_by all_goals simp_wf; omega

end

/-- Python `s.find(c)`: the index of the first occurrence of the
character `c` in `s`, or `-1` when `c` does not occur. -/
def pyFind (s : List Char) (c : Char) : Int :=
  match s with
  | [] => -1
  | a :: rest =>
      if a = c then 0
      else
        let r := pyFind rest c
        if r = -1 then -1 else r + 1

/-- Normalization of a Python slice endpoint for a sequence of length
`len`: a negative index counts from the end, and the result is clamped
into `[0, len]`. `s[:i]` is `s.take (pySliceIndex s.length i)` and
`s[i:]` is `s.drop (pySliceIndex s.length i)`. -/
def pySliceIndex (len : Nat) (i : Int) : Nat :=
  let j := if i < 0 then i + (len : Int) else i
  if j < 0 then 0 else min j.toNat len

/-- Model of `amulet.Block`: a namespace, a base name and an optional properties
compound. -/
structure Block where
  ns : List Char
  base_name : List Char
  properties : Option (List (String × NBT))

/-- One entry of the input `palette` array: the fully-qualified `name`
and the optional `properties` map. -/
structure PaletteEntry where
  name : List Char
  properties : Option (List (String × JSONVal))

/-- Function `json_to_block` (convert.py lines 98-106): decode the optional
properties, then split `name` at the result of `find(':')` using Python
slicing (`fqn[:i]` and `fqn[i+1:]`). -/
def json_to_block (data : PaletteEntry) : Block :=
  let properties := data.properties.map json_to_nbt
  let fqn := data.name
  let i := pyFind fqn ':'
  let ns := fqn.take (pySliceIndex fqn.length i)
  let base_name := fqn.drop (pySliceIndex fqn.length (i + 1))
  { ns := ns, base_name := base_name, properties := properties }

/-- One entry of the input `blocks` array: the palette index `pi`, the
optional `nbt` metadata map, and the optional tile-entity namespace and
base name. -/
structure VoxelEntry where
  pi : Nat
  nbt : Option (List (String × JSONVal))
  ns : Option String
  base_name : Option String

/-- Model of `amulet.api.block_entity.BlockEntity`: namespace, base name, absolute
position and the NBT data compound. -/
structure BlockEntity where
  ns : String
  base_name : String
  x : Int
  y : Int
  z : Int
  data : List (String × NBT)

/-- Model of `amulet.api.chunk.Chunk`, reduced to what `convert.py` observes: its
chunk coordinates, the log of `Chunk.set_block` calls (local x, y, local
z, block) in call order, the tile-entity list, and the `changed` flag. -/
structure Chunk where
  cx : Int
  cz : Int
  blocks : List (Int × Int × Int × Block)
  block_entities : List BlockEntity
  changed : Bool

/-- Method `Chunk.set_block` of Amulet, as observed: record the write. -/
def Chunk.set_block (c : Chunk) (x y z : Int) (b : Block) : Chunk :=
  { c with blocks := c.blocks ++ [(x, y, z, b)] }

/-- The block `amulet.Block('minecraft', 'bedrock')` (convert.py line 25). -/
def BEDROCK : Block :=
  { ns := "minecraft".toList, base_name := "bedrock".toList, properties := none }

/-- The bedrock floor a fresh chunk receives (convert.py lines 35-37):
`chunk.set_block(x, 0, z, BEDROCK)` for x in range(16), z in range(16). -/
def bedrockFloor : List (Int × Int × Int × Block) :=
  (List.range 16).flatMap fun x =>
    (List.range 16).map fun z => ((x : Int), 0, (z : Int), BEDROCK)

/-- The `WorldWrapper` state: the chunk cache (a Python dict keyed by
`(cx, cz)`), plus logs of the externally observable calls: `put_chunk`
calls, the number of `world.save()` calls, and the absolute coordinates
of the `WorldWrapper.set_block` calls in call order. -/
structure WorldWrapper where
  chunk_cache : List ((Int × Int) × Chunk)
  put_chunk_calls : List (Int × Int)
  save_calls : Nat
  set_block_calls : List (Int × Int × Int)

/-- Method `WorldWrapper.get_chunk` (convert.py lines 27-42): return the cached
chunk when present; otherwise create a fresh chunk, cache it, register it
with `world.put_chunk`, fill its y = 0 layer with bedrock and mark it
changed. Returns the chunk together with the updated state. -/
def WorldWrapper.get_chunk (w : WorldWrapper) (cx cz : Int) : Chunk × WorldWrapper :=
  match dictGet w.chunk_cache (cx, cz) with
  | some c => (c, w)
  | none =>
      let chunk : Chunk :=
        { cx := cx, cz := cz, blocks := bedrockFloor, block_entities := [], changed := true }
      (chunk,
        { w with
          chunk_cache := dictSet w.chunk_cache (cx, cz) chunk
          put_chunk_calls := w.put_chunk_calls ++ [(cx, cz)] })

/-- Python `divmod(a, b)`: floor division quotient and remainder with the
sign of the divisor. -/
def pyDivmod (a b : Int) : Int × Int := (a.fdiv b, a.fmod b)

/-- The owning-chunk key computed by `WorldWrapper.set_block` (convert.py
lines 50-51): the quotient parts of `divmod(x, 16)` and `divmod(z, 16)`. -/
def setBlockChunkKey (x z : Int) : Int × Int :=
  ((pyDivmod x 16).1, (pyDivmod z 16).1)

/-- Method `WorldWrapper.set_block` (convert.py lines 49-55): resolve the owning
chunk by `divmod` by 16 on x and z, get (or create) that chunk, and set
the block at the local offset. The mutation of the aliased cached chunk
is written back to the cache. -/
def WorldWrapper.set_block (w : WorldWrapper) (x y z : Int) (block : Block) : WorldWrapper :=
  let cx := (pyDivmod x 16).1
  let lx := (pyDivmod x 16).2
  let cz := (pyDivmod z 16).1
  let lz := (pyDivmod z 16).2
  let r := w.get_chunk cx cz
  let chunk := r.1.set_block lx y lz block
  { r.2 with
    chunk_cache := dictSet r.2.chunk_cache (cx, cz) chunk
    set_block_calls := r.2.set_block_calls ++ [(x, y, z)] }

/-- The owning-chunk key computed by `WorldWrapper.add_tile_entity`
(convert.py lines 58-64): `pos[0] // 16` and `pos[2] // 16` on the
entity's own position, Python `//` being floor division. -/
def tileEntityChunkKey (entity : BlockEntity) : Int × Int :=
  let pos := (entity.x, entity.y, entity.z)
  (pos.1.fdiv 16, pos.2.2.fdiv 16)

/-- Method `WorldWrapper.add_tile_entity` (convert.py lines 57-67): resolve the
owning chunk from the entity's own (x, z) by `// 16`, get (or create)
that chunk, and insert the entity into its tile-entity list. -/
def WorldWrapper.add_tile_entity (w : WorldWrapper) (entity : BlockEntity) : WorldWrapper :=
  let cx := (tileEntityChunkKey entity).1
  let cz := (tileEntityChunkKey entity).2
  let r := w.get_chunk cx cz
  let chunk := { r.1 with block_entities := r.1.block_entities ++ [entity] }
  { r.2 with chunk_cache := dictSet r.2.chunk_cache (cx, cz) chunk }

/-- Method `WorldWrapper.cleanup` (convert.py lines 44-47): mark every cached
chunk changed and `put_chunk` each of them, in cache order. The cache
itself is left untouched. -/
def WorldWrapper.cleanup (w : WorldWrapper) : WorldWrapper :=
  { w with
    chunk_cache := w.chunk_cache.map fun kc => (kc.1, { kc.2 with changed := true })
    put_chunk_calls := w.put_chunk_calls ++ w.chunk_cache.map Prod.fst }

/-- Method `WorldWrapper.save` (convert.py lines 69-71): `cleanup` then a single
`world.save()` call. -/
def WorldWrapper.save (w : WorldWrapper) : WorldWrapper :=
  let w := w.cleanup
  { w with save_calls := w.save_calls + 1 }

/-- The `--base-x`, `--base-y`, `--base-z` configuration of `main`. -/
structure MainConfig where
  base_x : Int
  base_y : Int
  base_z : Int

/-- Placeholder for an out-of-range `block_data[i]` access (a valid input
never reaches it). -/
def defaultEntry : VoxelEntry :=
  { pi := 0, nbt := none, ns := none, base_name := none }

/-- Placeholder for an out-of-range `palette[pi]` access (a valid input
never reaches it). -/
def defaultBlock : Block := { ns := [], base_name := [], properties := none }

/-- The tile-entity data compound built by `main` (convert.py lines
129-134): the decoded `nbt` map, then dict assignments of `x`, `y`, `z`
(the absolute coordinates, as `TAG_Int`) and `keepPacked = TAG_Int 0`. -/
def tileEntityData (nbt : List (String × JSONVal)) (xx yy zz : Int) : List (String × NBT) :=
  let d := json_to_nbt nbt
  let d := dictSet d "x" (NBT.int xx)
  let d := dictSet d "y" (NBT.int yy)
  let d := dictSet d "z" (NBT.int zz)
  dictSet d "keepPacked" (NBT.int 0)

/-- The body of the innermost loop of `main` (convert.py lines 115-143):
compute the linear index, look up the voxel entry and its palette block,
write the block at the base-offset coordinates, and, when the entry
carries `nbt` metadata, build the entity data and attach the tile entity
constructed from the entry's `namespace` and `base_name` fields. Reading
a missing `namespace` or `base_name` key (convert.py lines 137-138)
raises `KeyError`, modelled as `.error` carrying the state at the raise:
the block write for this voxel has already happened, no entity is
attached, and the loop aborts. -/
def mainStep (cfg : MainConfig) (ex ez : Nat) (palette : List Block)
    (block_data : List VoxelEntry) (y x z : Nat) (w : WorldWrapper) :
    Except WorldWrapper WorldWrapper :=
  let i := x + z * ex + y * ex * ez
  let block_info := block_data.getD i defaultEntry
  let block := palette.getD block_info.pi defaultBlock
  let xx := (x : Int) + cfg.base_x
  let yy := (y : Int) + cfg.base_y
  let zz := (z : Int) + cfg.base_z
  let w := w.set_block xx yy zz block
  match block_info.nbt with
  | none => .ok w
  | some nbt =>
      let entity_data := tileEntityData nbt xx yy zz
      match block_info.ns with
      | none => .error w
      | some entity_ns =>
          match block_info.base_name with
          | none => .error w
          | some entity_base_name =>
              let entity : BlockEntity :=
                { ns := entity_ns
                  base_name := entity_base_name
                  x := xx, y := yy, z := zz
                  data := entity_data }
              .ok (w.add_tile_entity entity)

/-- The triple loop nest of `main` (convert.py lines 115-143): `for y in
range(ey): for x in range(ex): for z in range(ez)`; an exception raised
by the body aborts the whole nest. -/
def mainLoop (cfg : MainConfig) (ex ey ez : Nat) (palette : List Block)
    (block_data : List VoxelEntry) (w0 : WorldWrapper) :
    Except WorldWrapper WorldWrapper :=
  List.foldlM (fun w y =>
    List.foldlM (fun w x =>
      List.foldlM (fun w z =>
        mainStep cfg ex ez palette block_data y x z w) w (List.range ez))
      w (List.range ex)) w0 (List.range ey)

/-- The freshly loaded world before any conversion write. -/
def initialWorld : WorldWrapper :=
  { chunk_cache := [], put_chunk_calls := [], save_calls := 0, set_block_calls := [] }

/-- The whole conversion run of `main` after input decoding: the loop
nest followed by `world.save()` (convert.py lines 115-146); when the
loop raises, the program aborts and `save` is never called. -/
def runConversion (cfg : MainConfig) (ex ey ez : Nat) (palette : List Block)
    (block_data : List VoxelEntry) : Except WorldWrapper WorldWrapper :=
  (mainLoop cfg ex ey ez palette block_data initialWorld).map WorldWrapper.save

/-- Observer: the world state a run ends in, whether it completed
normally or aborted with an exception. -/
def runResultState : Except WorldWrapper WorldWrapper → WorldWrapper
  | .ok w => w
  | .error w => w

/-- Observer: whether the run aborted with an exception. -/
def runAborted : Except WorldWrapper WorldWrapper → Bool
  | .ok _ => false
  | .error _ => true

/-! ### Dictionary lemmas -/

theorem dictGet_dictSet_self {κ α : Type} [DecidableEq κ] (d : List (κ × α)) (k : κ) (v : α) :
    dictGet (dictSet d k v) k = some v := by
  induction d with
  | nil => simp [dictSet, dictGet]
  | cons kv rest ih =>
      obtain ⟨k0, v0⟩ := kv
      by_cases h0 : k0 = k <;> simp [dictSet, dictGet, h0, ih]

theorem dictGet_dictSet_ne {κ α : Type} [DecidableEq κ] (d : List (κ × α)) (k k' : κ) (v : α)
    (h : k' ≠ k) : dictGet (dictSet d k v) k' = dictGet d k' := by
  induction d with
  | nil => simp [dictSet, dictGet, Ne.symm h]
  | cons kv rest ih =>
      obtain ⟨k0, v0⟩ := kv
      by_cases h0 : k0 = k
      · subst h0
        simp [dictSet, dictGet, Ne.symm h]
      · simp [dictSet, dictGet, h0, ih]

theorem dictGet_mem_keys {κ α : Type} [DecidableEq κ] {d : List (κ × α)} {k : κ} {v : α}
    (h : dictGet d k = some v) : k ∈ d.map Prod.fst := by
  induction d with
  | nil => simp [dictGet] at h
  | cons kv rest ih =>
      obtain ⟨k0, v0⟩ := kv
      by_cases h0 : k0 = k
      · simp [h0]
      · simp only [dictGet, if_neg h0] at h
        simp [ih h]

theorem dictGet_eq_none_of_not_mem {κ α : Type} [DecidableEq κ] {d : List (κ × α)} {k : κ}
    (h : k ∉ d.map Prod.fst) : dictGet d k = none := by
  induction d with
  | nil => simp [dictGet]
  | cons kv rest ih =>
      obtain ⟨k0, v0⟩ := kv
      simp only [List.map_cons, List.mem_cons] at h
      push_neg at h
      simp [dictGet, Ne.symm h.1, ih h.2]

theorem keys_dictSet_of_mem {κ α : Type} [DecidableEq κ] {d : List (κ × α)} {k : κ} (v : α)
    (h : k ∈ d.map Prod.fst) : (dictSet d k v).map Prod.fst = d.map Prod.fst := by
  induction d with
  | nil => simp at h
  | cons kv rest ih =>
      obtain ⟨k0, v0⟩ := kv
      by_cases h0 : k0 = k
      · simp [dictSet, h0]
      · simp only [List.map_cons, List.mem_cons] at h
        rcases h with h | h
        · exact absurd h.symm h0
        · simp [dictSet, h0, ih h]

theorem dictSet_of_not_mem {κ α : Type} [DecidableEq κ] {d : List (κ × α)} {k : κ} (v : α)
    (h : k ∉ d.map Prod.fst) : dictSet d k v = d ++ [(k, v)] := by
  induction d with
  | nil => simp [dictSet]
  | cons kv rest ih =>
      obtain ⟨k0, v0⟩ := kv
      simp only [List.map_cons, List.mem_cons] at h
      push_neg at h
      simp [dictSet, Ne.symm h.1, ih h.2]

/-! ### `pyFind` and slicing lemmas -/

theorem pyFind_eq_neg_one {s : List Char} {c : Char} (h : c ∉ s) : pyFind s c = -1 := by
  induction s with
  | nil => rfl
  | cons a rest ih =>
      simp only [List.mem_cons] at h
      push_neg at h
      simp [pyFind, Ne.symm h.1, ih h.2]

theorem pyFind_split {s : List Char} {c : Char} (h : c ∈ s) :
    0 ≤ pyFind s c ∧ (pyFind s c).toNat < s.length ∧
    s = s.take (pyFind s c).toNat ++ c :: s.drop ((pyFind s c).toNat + 1) ∧
    c ∉ s.take (pyFind s c).toNat := by
  induction s with
  | nil => simp at h
  | cons a rest ih =>
      by_cases ha : a = c
      · subst ha
        simp [pyFind]
      · rcases List.mem_cons.mp h with h' | h'
        · exact absurd h'.symm ha
        · obtain ⟨h0, hlt, heq, hnot⟩ := ih h'
          have hne : pyFind rest c ≠ -1 := by omega
          have hval : pyFind (a :: rest) c = pyFind rest c + 1 := by
            simp [pyFind, ha, hne]
          have htn : (pyFind rest c + 1).toNat = (pyFind rest c).toNat + 1 := by omega
          refine ⟨by omega, ?_, ?_, ?_⟩
          · rw [hval, htn]
            simpa using hlt
          · rw [hval, htn]
            simp only [List.take_succ_cons, List.drop_succ_cons]
            rw [List.cons_append]
            exact congrArg (a :: ·) heq
          · rw [hval, htn]
            simp only [List.take_succ_cons, List.mem_cons]
            push_neg
            exact ⟨Ne.symm ha, hnot⟩

theorem pySliceIndex_of_nonneg {len : Nat} {i : Int} (h0 : 0 ≤ i) (hlt : i.toNat ≤ len) :
    pySliceIndex len i = i.toNat := by
  simp only [pySliceIndex]
  have : ¬ i < 0 := by omega
  simp [this, Nat.min_eq_left hlt]

/-! ### `json_to_block` splitting behavior -/

theorem json_to_block_of_mem {p : PaletteEntry} (h : ':' ∈ p.name) :
    (json_to_block p).ns = p.name.take (pyFind p.name ':').toNat ∧
    (json_to_block p).base_name = p.name.drop ((pyFind p.name ':').toNat + 1) := by
  obtain ⟨h0, hlt, _, _⟩ := pyFind_split h
  have h1 : pySliceIndex p.name.length (pyFind p.name ':') = (pyFind p.name ':').toNat :=
    pySliceIndex_of_nonneg h0 (le_of_lt hlt)
  have h2 : pySliceIndex p.name.length (pyFind p.name ':' + 1) = (pyFind p.name ':').toNat + 1 := by
    have : (pyFind p.name ':' + 1).toNat = (pyFind p.name ':').toNat + 1 := by omega
    rw [pySliceIndex_of_nonneg (by omega) (by omega), this]
  constructor
  · simp [json_to_block, h1]
  · simp [json_to_block, h2]

theorem json_to_block_of_not_mem {p : PaletteEntry} (h : ':' ∉ p.name) :
    json_to_block p =
      { ns := p.name.take (p.name.length - 1)
        base_name := p.name
        properties := p.properties.map json_to_nbt } := by
  have hf : pyFind p.name ':' = -1 := pyFind_eq_neg_one h
  have h2 : pySliceIndex p.name.length (pyFind p.name ':' + 1) = 0 := by
    rw [hf]
    simp [pySliceIndex]
  have h1 : pySliceIndex p.name.length (pyFind p.name ':') = p.name.length - 1 := by
    rw [hf]
    rcases Nat.eq_zero_or_pos p.name.length with hl | hl
    · simp [pySliceIndex, hl]
    · have hj : ¬ ((-1 : Int) + (p.name.length : Int) < 0) := by omega
      have ht : ((-1 : Int) + (p.name.length : Int)).toNat = p.name.length - 1 := by omega
      simp only [pySliceIndex, if_pos (show (-1 : Int) < 0 by omega), if_neg hj, ht]
      omega
  simp [json_to_block, h1, h2]

/-- The set of chunk-cache keys after one write that resolves to the
chunk key `k`: unchanged when `k` is already cached, extended by `k`
otherwise. -/
def cacheKeysAfter (w : WorldWrapper) (k : Int × Int) : List (Int × Int) :=
  if k ∈ w.chunk_cache.map Prod.fst then w.chunk_cache.map Prod.fst
  else w.chunk_cache.map Prod.fst ++ [k]

theorem dictGet_ne_none_of_mem {κ α : Type} [DecidableEq κ] {d : List (κ × α)} {k : κ}
    (h : k ∈ d.map Prod.fst) : dictGet d k ≠ none := by
  induction d with
  | nil => simp at h
  | cons kv rest ih =>
      obtain ⟨k0, v0⟩ := kv
      by_cases h0 : k0 = k
      · simp [dictGet, h0]
      · simp only [List.map_cons, List.mem_cons] at h
        rcases h with h | h
        · exact absurd h.symm h0
        · simp [dictGet, h0, ih h]

theorem get_chunk_then_set_keys (w : WorldWrapper) (k : Int × Int) (c : Chunk) :
    (dictSet ((w.get_chunk k.1 k.2).2).chunk_cache k c).map Prod.fst = cacheKeysAfter w k := by
  rcases hg : dictGet w.chunk_cache (k.1, k.2) with _ | c0
  · have hmem : k ∉ w.chunk_cache.map Prod.fst := fun hm => dictGet_ne_none_of_mem hm hg
    have hcache : ((w.get_chunk k.1 k.2).2).chunk_cache
        = w.chunk_cache ++ [((k.1, k.2),
            { cx := k.1, cz := k.2, blocks := bedrockFloor, block_entities := [],
              changed := true })] := by
      simp only [WorldWrapper.get_chunk, hg]
      exact dictSet_of_not_mem _ hmem
    rw [hcache, keys_dictSet_of_mem _ (by simp)]
    simp [cacheKeysAfter, hmem]
  · have hmem : k ∈ w.chunk_cache.map Prod.fst := dictGet_mem_keys hg
    have hcache : ((w.get_chunk k.1 k.2).2).chunk_cache = w.chunk_cache := by
      simp [WorldWrapper.get_chunk, hg]
    rw [hcache, keys_dictSet_of_mem _ hmem]
    simp [cacheKeysAfter, hmem]

/-- C2 counterexample: there is no coordinate (negative or otherwise) at
which the chunk key computed by `add_tile_entity` (floor division `//
16`) differs from the one computed by `set_block` (`divmod(·, 16)`):
Python's `//` and `divmod` agree, both being floor division. -/
theorem c2_counterexample :
    ¬ ∃ e : BlockEntity, (e.x < 0 ∨ e.z < 0) ∧
        tileEntityChunkKey e ≠ setBlockChunkKey e.x e.z := by
  rintro ⟨e, -, hne⟩
  exact hne rfl

/-- C2 (amended): `add_tile_entity` and `set_block` resolve the same
owning chunk for the same absolute position, at every coordinate
including negative ones; both are floor division by 16 (e.g. x = -17
resolves to chunk -2, not -1 as truncation would give). -/
theorem c2_chunk_resolutions_agree (w : WorldWrapper) (e : BlockEntity) (y : Int) (b : Block) :
    tileEntityChunkKey e = setBlockChunkKey e.x e.z ∧
    (w.set_block e.x y e.z b).chunk_cache.map Prod.fst
      = (w.add_tile_entity e).chunk_cache.map Prod.fst ∧
    setBlockChunkKey (-17) (-1) = (-2, -1) := by
  refine ⟨rfl, ?_, by decide⟩
  have h1 : (w.set_block e.x y e.z b).chunk_cache.map Prod.fst
      = cacheKeysAfter w (setBlockChunkKey e.x e.z) :=
    get_chunk_then_set_keys w (setBlockChunkKey e.x e.z) _
  have h2 : (w.add_tile_entity e).chunk_cache.map Prod.fst
      = cacheKeysAfter w (tileEntityChunkKey e) :=
    get_chunk_then_set_keys w (tileEntityChunkKey e) _
  rw [h1, h2]
  rfl

/-- C3 counterexample: decoding the palette name "stone" (which has no
':') does not fail; `json_to_block` returns a block (with namespace
"ston" and base name "stone"), the claim said decoding raises
`MalformedPaletteEntry` instead of producing a block. -/
theorem c3_counterexample :
    json_to_block { name := ['s', 't', 'o', 'n', 'e'], properties := none } =
      { ns := ['s', 't', 'o', 'n'], base_name := ['s', 't', 'o', 'n', 'e'],
        properties := none } := by
  rfl

/-- C3 (amended): decoding a palette entry whose name lacks ':' does not
fail: `json_to_block` always returns a block, and for such names the
block's base name is the entire original name. -/
theorem c3_no_failure_without_colon (p : PaletteEntry) (h : ':' ∉ p.name) :
    (json_to_block p).base_name = p.name := by
  rw [json_to_block_of_not_mem h]

/-- C3 witness: the amended statement at the concrete name "stone". -/
theorem c3_witness :
    (':' ∉ ['s', 't', 'o', 'n', 'e']) ∧
    (json_to_block { name := ['s', 't', 'o', 'n', 'e'], properties := none }).base_name
      = ['s', 't', 'o', 'n', 'e'] :=
  ⟨by decide, c3_no_failure_without_colon
    { name := ['s', 't', 'o', 'n', 'e'], properties := none } (by decide)⟩

/-- C5: palette decoding splits the fully-qualified name on its first ':'
only: for every name containing ':', the produced namespace and base name
reassemble to the original with the split at the first ':' (the namespace
contains no ':'); in particular "minecraft:stone" gives namespace
"minecraft" / base "stone" with no properties, and
"redstone:wire_junction:extra" gives namespace "redstone" / base
"wire_junction:extra". -/
theorem c5_split_first_colon (p : PaletteEntry) (h : ':' ∈ p.name) :
    ((json_to_block p).ns ++ ':' :: (json_to_block p).base_name = p.name ∧
      ':' ∉ (json_to_block p).ns) ∧
    json_to_block { name := "minecraft:stone".toList, properties := none } =
      { ns := "minecraft".toList, base_name := "stone".toList, properties := none } ∧
    json_to_block { name := "redstone:wire_junction:extra".toList, properties := none } =
      { ns := "redstone".toList, base_name := "wire_junction:extra".toList,
        properties := none } := by
  obtain ⟨h0, hlt, heq, hnot⟩ := pyFind_split h
  obtain ⟨hns, hbn⟩ := json_to_block_of_mem h
  refine ⟨⟨?_, ?_⟩, by rfl, by rfl⟩
  · rw [hns, hbn]
    exact heq.symm
  · rw [hns]
    exact hnot

/-- The palette entry `{"name": "minecraft:stone"}`. -/
def mcStoneEntry : PaletteEntry := { name := "minecraft:stone".toList, properties := none }

/-- C5 witness: the splitting statement at the concrete name
"minecraft:stone". -/
theorem c5_witness :
    (':' ∈ mcStoneEntry.name) ∧
    (((json_to_block mcStoneEntry).ns ++ ':' :: (json_to_block mcStoneEntry).base_name
        = mcStoneEntry.name ∧
      ':' ∉ (json_to_block mcStoneEntry).ns) ∧
    json_to_block { name := "minecraft:stone".toList, properties := none } =
      { ns := "minecraft".toList, base_name := "stone".toList, properties := none } ∧
    json_to_block { name := "redstone:wire_junction:extra".toList, properties := none } =
      { ns := "redstone".toList, base_name := "wire_junction:extra".toList,
        properties := none }) :=
  ⟨by decide, c5_split_first_colon mcStoneEntry (by decide)⟩

/-- C10: for a palette entry whose name has no ':' at all, decoding
raises no error and returns a block whose namespace is the name with its
final character removed and whose base name is the entire original name
(the `find` returning -1 makes `fqn[:-1]` drop the last character and
`fqn[0:]` keep everything). -/
theorem c10_no_colon_block (p : PaletteEntry) (h : ':' ∉ p.name) :
    json_to_block p =
      { ns := p.name.dropLast
        base_name := p.name
        properties := p.properties.map json_to_nbt } := by
  rw [json_to_block_of_not_mem h, List.dropLast_eq_take]

/-- C10 witness: the statement at the concrete name "stone". -/
theorem c10_witness :
    (':' ∉ ['s', 't', 'o', 'n', 'e']) ∧
    json_to_block { name := ['s', 't', 'o', 'n', 'e'], properties := none } =
      { ns := ['s', 't', 'o', 'n', 'e'].dropLast
        base_name := ['s', 't', 'o', 'n', 'e']
        properties := (none : Option (List (String × JSONVal))).map json_to_nbt } :=
  ⟨by decide, c10_no_colon_block
    { name := ['s', 't', 'o', 'n', 'e'], properties := none } (by decide)⟩

/-! ### `json_to_nbt` as a per-key map -/

theorem jsonToNbtLoop_eq_append (data : List (String × JSONVal)) :
    ∀ props : List (String × NBT),
      (data.map Prod.fst).Nodup →
      (∀ key ∈ data.map Prod.fst, key ∉ props.map Prod.fst) →
      jsonToNbtLoop props data = props ++ data.map (fun e => (e.1, jsonValToTag e.2)) := by
  induction data with
  | nil => intro props _ _; simp [jsonToNbtLoop]
  | cons kv rest ih =>
      rintro props hnd hfresh
      obtain ⟨k, v⟩ := kv
      have hk : k ∉ props.map Prod.fst := hfresh k (by simp)
      simp only [List.map_cons, List.nodup_cons] at hnd
      rw [jsonToNbtLoop, dictSet_of_not_mem _ hk,
        ih (props ++ [(k, jsonValToTag v)]) hnd.2 ?_]
      · simp
      · intro key hkey
        simp only [List.map_append, List.mem_append, List.map_cons, List.map_nil,
          List.mem_singleton]
        push_neg
        exact ⟨fun hmem => hfresh key (by simp [hkey]) hmem,
          fun heq => hnd.1 (heq ▸ hkey)⟩

theorem json_to_nbt_eq_map {data : List (String × JSONVal)}
    (hnd : (data.map Prod.fst).Nodup) :
    json_to_nbt data = data.map (fun e => (e.1, jsonValToTag e.2)) := by
  rw [json_to_nbt]
  simpa using jsonToNbtLoop_eq_append data [] hnd (by simp)

theorem dictGet_map_snd {α β : Type} (f : α → β) (data : List (String × α)) (k : String) :
    dictGet (data.map fun e => (e.1, f e.2)) k = (dictGet data k).map f := by
  induction data with
  | nil => simp [dictGet]
  | cons kv rest ih =>
      obtain ⟨k0, v0⟩ := kv
      by_cases h0 : k0 = k <;> simp [dictGet, h0, ih]

/-- C4: the tag decoder maps each value by its kind: a nested object
decodes recursively to a Compound tag, a text value to a String tag, a
boolean to a String tag holding exactly "true" or "false" (the `NBT` type
has no native boolean variant at all), and any other scalar to a
`TAG_Byte` (narrow 8-bit signed integer tag); consequently, for a
property map with distinct keys, each key's decoded value is exactly the
per-kind image of its input value. -/
theorem c4_tag_dispatch (data : List (String × JSONVal))
    (hnd : (data.map Prod.fst).Nodup) :
    (∀ k : String, dictGet (json_to_nbt data) k = (dictGet data k).map jsonValToTag) ∧
    (∀ o, jsonValToTag (.obj o) = .compound (json_to_nbt o)) ∧
    (∀ s, jsonValToTag (.str s) = .string s) ∧
    jsonValToTag (.bool true) = .string "true" ∧
    jsonValToTag (.bool false) = .string "false" ∧
    (∀ n : Int, jsonValToTag (.num n) = .byte n) ∧
    json_to_nbt [("powered", .bool true)] = [("powered", .string "true")] := by
  refine ⟨?_, fun o => ?_, fun s => ?_, ?_, ?_, fun n => ?_, ?_⟩
  · intro k
    rw [json_to_nbt_eq_map hnd, dictGet_map_snd]
  · rw [jsonValToTag]
  · rw [jsonValToTag]
  · rw [jsonValToTag]
    rfl
  · rw [jsonValToTag]
    rfl
  · rw [jsonValToTag]
  · rw [json_to_nbt_eq_map (by simp), List.map_cons, List.map_nil, jsonValToTag]
    rfl

/-- C4 witness: the per-key mapping at the concrete one-entry map
`{"powered": true}` and key "powered". -/
theorem c4_witness :
    ((List.map Prod.fst [("powered", JSONVal.bool true)]).Nodup) ∧
    dictGet (json_to_nbt [("powered", JSONVal.bool true)]) "powered"
      = (dictGet [("powered", JSONVal.bool true)] "powered").map jsonValToTag :=
  ⟨by simp, (c4_tag_dispatch [("powered", JSONVal.bool true)] (by simp)).1 "powered"⟩

/-- C8: the tile-entity data compound built by `main` contains `TAG_Int`
fields x, y, z holding the absolute (base-offset) coordinates and a
`TAG_Int` field keepPacked = 0; these four dict assignments overwrite any
same-named keys from the decoded metadata (last-write-wins), and every
other decoded metadata key keeps exactly the value it has in the decoded
compound. -/
theorem c8_tile_entity_stamping (nbt : List (String × JSONVal)) (xx yy zz : Int) :
    dictGet (tileEntityData nbt xx yy zz) "x" = some (NBT.int xx) ∧
    dictGet (tileEntityData nbt xx yy zz) "y" = some (NBT.int yy) ∧
    dictGet (tileEntityData nbt xx yy zz) "z" = some (NBT.int zz) ∧
    dictGet (tileEntityData nbt xx yy zz) "keepPacked" = some (NBT.int 0) ∧
    ∀ k : String, k ∉ ["x", "y", "z", "keepPacked"] →
      dictGet (tileEntityData nbt xx yy zz) k = dictGet (json_to_nbt nbt) k := by
  simp only [tileEntityData]
  refine ⟨?_, ?_, ?_, ?_, ?_⟩
  · rw [dictGet_dictSet_ne _ _ _ _ (by decide), dictGet_dictSet_ne _ _ _ _ (by decide),
      dictGet_dictSet_ne _ _ _ _ (by decide), dictGet_dictSet_self]
  · rw [dictGet_dictSet_ne _ _ _ _ (by decide), dictGet_dictSet_ne _ _ _ _ (by decide),
      dictGet_dictSet_self]
  · rw [dictGet_dictSet_ne _ _ _ _ (by decide), dictGet_dictSet_self]
  · rw [dictGet_dictSet_self]
  · intro k hk
    simp only [List.mem_cons, List.not_mem_nil, or_false] at hk
    push_neg at hk
    obtain ⟨hx, hy, hz, hkp⟩ := hk
    rw [dictGet_dictSet_ne _ _ _ _ hkp, dictGet_dictSet_ne _ _ _ _ hz,
      dictGet_dictSet_ne _ _ _ _ hy, dictGet_dictSet_ne _ _ _ _ hx]

/-- C8 witness: the stamping statement at the concrete metadata
`{"foo": 1}` and absolute position (3, 7, 5); the preserved key "foo"
still decodes to the `TAG_Byte 1` it has in the decoded compound. -/
theorem c8_witness :
    dictGet (tileEntityData [("foo", JSONVal.num 1)] 3 7 5) "x" = some (NBT.int 3) ∧
    dictGet (tileEntityData [("foo", JSONVal.num 1)] 3 7 5) "keepPacked"
      = some (NBT.int 0) ∧
    dictGet (tileEntityData [("foo", JSONVal.num 1)] 3 7 5) "foo"
      = some (NBT.byte 1) := by
  refine ⟨(c8_tile_entity_stamping [("foo", JSONVal.num 1)] 3 7 5).1,
    (c8_tile_entity_stamping [("foo", JSONVal.num 1)] 3 7 5).2.2.2.1, ?_⟩
  rw [(c8_tile_entity_stamping [("foo", JSONVal.num 1)] 3 7 5).2.2.2.2 "foo" (by decide),
    json_to_nbt_eq_map (by simp), List.map_cons, List.map_nil, jsonValToTag]
  rfl

/-! ### Chunk cache idempotence and save behavior -/

theorem get_chunk_of_cached {w : WorldWrapper} {cx cz : Int} {c : Chunk}
    (h : dictGet w.chunk_cache (cx, cz) = some c) : w.get_chunk cx cz = (c, w) := by
  simp [WorldWrapper.get_chunk, h]

theorem get_chunk_cached (w : WorldWrapper) (cx cz : Int) :
    dictGet ((w.get_chunk cx cz).2).chunk_cache (cx, cz) = some ((w.get_chunk cx cz).1) := by
  rcases hg : dictGet w.chunk_cache (cx, cz) with _ | c0
  · simp [WorldWrapper.get_chunk, hg, dictGet_dictSet_self]
  · simp [WorldWrapper.get_chunk, hg]

theorem set_block_keys (w : WorldWrapper) (x y z : Int) (b : Block) :
    (w.set_block x y z b).chunk_cache.map Prod.fst
      = cacheKeysAfter w (setBlockChunkKey x z) :=
  get_chunk_then_set_keys w (setBlockChunkKey x z) _

theorem set_block_key_mem (w : WorldWrapper) (x y z : Int) (b : Block) :
    setBlockChunkKey x z ∈ (w.set_block x y z b).chunk_cache.map Prod.fst := by
  rw [set_block_keys]
  by_cases h : setBlockChunkKey x z ∈ w.chunk_cache.map Prod.fst <;>
    simp [cacheKeysAfter, h]

theorem set_block_hit (w : WorldWrapper) (x y z : Int) (b : Block)
    (h : setBlockChunkKey x z ∈ w.chunk_cache.map Prod.fst) :
    (w.set_block x y z b).put_chunk_calls = w.put_chunk_calls ∧
    (w.set_block x y z b).chunk_cache.map Prod.fst = w.chunk_cache.map Prod.fst := by
  rcases hg : dictGet w.chunk_cache (setBlockChunkKey x z) with _ | c0
  · exact absurd hg (dictGet_ne_none_of_mem h)
  · have hget : w.get_chunk (setBlockChunkKey x z).1 (setBlockChunkKey x z).2 = (c0, w) :=
      get_chunk_of_cached hg
    constructor
    · show ((w.get_chunk (setBlockChunkKey x z).1 (setBlockChunkKey x z).2).2).put_chunk_calls
        = w.put_chunk_calls
      rw [hget]
    · rw [set_block_keys]
      simp [cacheKeysAfter, h]

/-- C6: chunk creation is idempotent per (chunkX, chunkZ): a second
`get_chunk` for the same key returns the very chunk already cached and
leaves the whole state unchanged (so the constructor and the bedrock
floor run at most once per footprint), and a second block write into the
same 16x16 footprint creates no chunk: it issues no further `put_chunk`
registration and leaves the set of cached chunk keys unchanged. -/
theorem c6_chunk_creation_idempotent (w : WorldWrapper) (cx cz : Int)
    (x y z x' y' z' : Int) (b b' : Block)
    (hsame : setBlockChunkKey x z = setBlockChunkKey x' z') :
    (((w.get_chunk cx cz).2).get_chunk cx cz = w.get_chunk cx cz) ∧
    (((w.set_block x y z b).set_block x' y' z' b').put_chunk_calls
      = (w.set_block x y z b).put_chunk_calls) ∧
    (((w.set_block x y z b).set_block x' y' z' b').chunk_cache.map Prod.fst
      = (w.set_block x y z b).chunk_cache.map Prod.fst) := by
  have hmem : setBlockChunkKey x' z' ∈ (w.set_block x y z b).chunk_cache.map Prod.fst :=
    hsame ▸ set_block_key_mem w x y z b
  exact ⟨get_chunk_of_cached (get_chunk_cached w cx cz),
    (set_block_hit _ x' y' z' b' hmem).1, (set_block_hit _ x' y' z' b' hmem).2⟩

/-- C6 witness: the idempotence statement on the empty initial world,
with the writes (1, 5, 2) and (15, 6, 9), which share the chunk
footprint (0, 0). -/
theorem c6_witness :
    (setBlockChunkKey 1 2 = setBlockChunkKey 15 9) ∧
    ((((initialWorld.get_chunk 0 0).2).get_chunk 0 0 = initialWorld.get_chunk 0 0) ∧
    (((initialWorld.set_block 1 5 2 BEDROCK).set_block 15 6 9 BEDROCK).put_chunk_calls
      = (initialWorld.set_block 1 5 2 BEDROCK).put_chunk_calls) ∧
    (((initialWorld.set_block 1 5 2 BEDROCK).set_block 15 6 9 BEDROCK).chunk_cache.map
        Prod.fst
      = (initialWorld.set_block 1 5 2 BEDROCK).chunk_cache.map Prod.fst)) :=
  ⟨by decide,
    c6_chunk_creation_idempotent initialWorld 0 0 1 5 2 15 6 9 BEDROCK BEDROCK (by decide)⟩

/-- A world state holding one cached chunk, used to exhibit the behavior
of `save` on a non-empty cache. -/
def exampleWorld : WorldWrapper :=
  { chunk_cache := [((0, 0),
      { cx := 0, cz := 0, blocks := [], block_entities := [], changed := false })]
    put_chunk_calls := []
    save_calls := 0
    set_block_calls := [] }

/-- C7 counterexample: `save` does not clear the chunk cache: on a world
with one cached chunk, the cache still holds a chunk after `save`. -/
theorem c7_counterexample : (exampleWorld.save).chunk_cache ≠ [] := by
  simp [WorldWrapper.save, WorldWrapper.cleanup, exampleWorld]

/-- C7 (amended): at save time, `save` marks every cached chunk dirty,
commits each cached chunk to the persistence adapter (`put_chunk` once
per cached chunk, in cache order) and issues exactly one world-save
call; the chunk cache is left intact (every chunk stays cached, now
marked changed), not cleared. -/
theorem c7_save_behavior (w : WorldWrapper) :
    (w.save).save_calls = w.save_calls + 1 ∧
    (w.save).put_chunk_calls = w.put_chunk_calls ++ w.chunk_cache.map Prod.fst ∧
    (w.save).chunk_cache
      = w.chunk_cache.map (fun kc => (kc.1, { kc.2 with changed := true })) ∧
    ∀ kc ∈ (w.save).chunk_cache, kc.2.changed = true := by
  refine ⟨rfl, rfl, rfl, ?_⟩
  intro kc hkc
  simp only [WorldWrapper.save, WorldWrapper.cleanup, List.mem_map] at hkc
  obtain ⟨a, _, rfl⟩ := hkc
  rfl

/-- C7 witness: the amended statement at the one-chunk world. -/
theorem c7_witness :
    (exampleWorld.save).save_calls = exampleWorld.save_calls + 1 ∧
    (exampleWorld.save).put_chunk_calls
      = exampleWorld.put_chunk_calls ++ exampleWorld.chunk_cache.map Prod.fst ∧
    (exampleWorld.save).chunk_cache
      = exampleWorld.chunk_cache.map (fun kc => (kc.1, { kc.2 with changed := true })) ∧
    ∀ kc ∈ (exampleWorld.save).chunk_cache, kc.2.changed = true :=
  c7_save_behavior exampleWorld

/-! ### The loop nest: set_block call log and grid coverage -/

theorem get_chunk_set_block_calls (w : WorldWrapper) (cx cz : Int) :
    ((w.get_chunk cx cz).2).set_block_calls = w.set_block_calls := by
  rcases hg : dictGet w.chunk_cache (cx, cz) with _ | c0 <;>
    simp [WorldWrapper.get_chunk, hg]

theorem set_block_set_block_calls (w : WorldWrapper) (x y z : Int) (b : Block) :
    (w.set_block x y z b).set_block_calls = w.set_block_calls ++ [(x, y, z)] := by
  simp [WorldWrapper.set_block, get_chunk_set_block_calls]

theorem add_tile_entity_set_block_calls (w : WorldWrapper) (e : BlockEntity) :
    (w.add_tile_entity e).set_block_calls = w.set_block_calls := by
  simp [WorldWrapper.add_tile_entity, get_chunk_set_block_calls]

theorem mainStep_ok (cfg : MainConfig) (ex ez : Nat) (palette : List Block)
    (block_data : List VoxelEntry)
    (hent : ∀ e ∈ block_data, e.nbt.isSome → e.ns.isSome ∧ e.base_name.isSome)
    (y x z : Nat) (w : WorldWrapper) :
    ∃ w', mainStep cfg ex ez palette block_data y x z w = .ok w' ∧
      w'.set_block_calls = w.set_block_calls
        ++ [((x : Int) + cfg.base_x, (y : Int) + cfg.base_y, (z : Int) + cfg.base_z)] := by
  rcases hnbt : (block_data.getD (x + z * ex + y * ex * ez) defaultEntry).nbt with _ | nbt
  · exact ⟨_, by simp only [mainStep, hnbt]; rfl, set_block_set_block_calls w _ _ _ _⟩
  · have hmem : block_data.getD (x + z * ex + y * ex * ez) defaultEntry ∈ block_data := by
      rcases Nat.lt_or_ge (x + z * ex + y * ex * ez) block_data.length with hlt | hge
      · rw [List.getD_eq_getElem _ _ hlt]
        exact List.getElem_mem hlt
      · rw [List.getD_eq_getElem?_getD, List.getElem?_eq_none hge] at hnbt
        simp [defaultEntry] at hnbt
    have hsome := hent _ hmem (by rw [hnbt]; rfl)
    rcases hns : (block_data.getD (x + z * ex + y * ex * ez) defaultEntry).ns
      with _ | entity_ns
    · rw [hns] at hsome
      simp at hsome
    · rcases hbn : (block_data.getD (x + z * ex + y * ex * ez) defaultEntry).base_name
        with _ | entity_base_name
      · rw [hbn] at hsome
        simp at hsome
      · exact ⟨_, by simp only [mainStep, hnbt, hns, hbn]; rfl, by
          rw [add_tile_entity_set_block_calls, set_block_set_block_calls]⟩

theorem foldlM_log {W C : Type} (log : W → List C) (f : W → Nat → Except W W)
    (g : Nat → List C)
    (hf : ∀ w a, ∃ w', f w a = .ok w' ∧ log w' = log w ++ g a) :
    ∀ (l : List Nat) (w : W),
      ∃ w', List.foldlM f w l = .ok w' ∧ log w' = log w ++ l.flatMap g := by
  intro l
  induction l with
  | nil => intro w; exact ⟨w, rfl, by simp⟩
  | cons a t ih =>
      intro w
      obtain ⟨w1, hw1, hlog1⟩ := hf w a
      obtain ⟨w2, hw2, hlog2⟩ := ih w1
      refine ⟨w2, ?_, ?_⟩
      · show List.foldlM f w (a :: t) = .ok w2
        rw [show List.foldlM f w (a :: t)
            = f w a >>= fun wn => List.foldlM f wn t from rfl, hw1]
        exact hw2
      · rw [hlog2, hlog1, List.flatMap_cons, List.append_assoc]

theorem flatMap_singleton_eq_map {α β : Type} (l : List α) (f : α → β) :
    (l.flatMap fun a => [f a]) = l.map f := by
  induction l with
  | nil => rfl
  | cons a t ih => simp [List.flatMap_cons, ih]

/-- The sequence of absolute coordinates the loop nest of `main` passes
to `WorldWrapper.set_block`, in call order. -/
def setBlockCoords (cfg : MainConfig) (ex ey ez : Nat) : List (Int × Int × Int) :=
  (List.range ey).flatMap fun (y : Nat) =>
    (List.range ex).flatMap fun (x : Nat) =>
      (List.range ez).map fun (z : Nat) =>
        ((x : Int) + cfg.base_x, (y : Int) + cfg.base_y, (z : Int) + cfg.base_z)

theorem mainLoop_ok (cfg : MainConfig) (ex ey ez : Nat) (palette : List Block)
    (block_data : List VoxelEntry)
    (hent : ∀ e ∈ block_data, e.nbt.isSome → e.ns.isSome ∧ e.base_name.isSome)
    (w0 : WorldWrapper) :
    ∃ w', mainLoop cfg ex ey ez palette block_data w0 = .ok w' ∧
      w'.set_block_calls = w0.set_block_calls ++ setBlockCoords cfg ex ey ez := by
  have hz : ∀ (y x : Nat) (w : WorldWrapper),
      ∃ w', List.foldlM (fun w z => mainStep cfg ex ez palette block_data y x z w)
          w (List.range ez) = .ok w' ∧
        w'.set_block_calls
          = w.set_block_calls ++ (List.range ez).map fun (z : Nat) =>
              ((x : Int) + cfg.base_x, (y : Int) + cfg.base_y, (z : Int) + cfg.base_z) := by
    intro y x w
    obtain ⟨w', hw', hlog⟩ := foldlM_log WorldWrapper.set_block_calls _
      (fun z => [((x : Int) + cfg.base_x, (y : Int) + cfg.base_y, (z : Int) + cfg.base_z)])
      (fun w z => mainStep_ok cfg ex ez palette block_data hent y x z w)
      (List.range ez) w
    refine ⟨w', hw', ?_⟩
    rw [hlog]
    congr 1
    exact flatMap_singleton_eq_map _ _
  have hx : ∀ (y : Nat) (w : WorldWrapper),
      ∃ w', List.foldlM (fun w x =>
          List.foldlM (fun w z => mainStep cfg ex ez palette block_data y x z w)
            w (List.range ez)) w (List.range ex) = .ok w' ∧
        w'.set_block_calls
          = w.set_block_calls ++ (List.range ex).flatMap fun (x : Nat) =>
              (List.range ez).map fun (z : Nat) =>
                ((x : Int) + cfg.base_x, (y : Int) + cfg.base_y, (z : Int) + cfg.base_z) := by
    intro y w
    exact foldlM_log WorldWrapper.set_block_calls _ _ (fun w x => hz y x w) (List.range ex) w
  exact foldlM_log WorldWrapper.set_block_calls _ _ (fun w y => hx y w) (List.range ey) w0

theorem runConversion_ok (cfg : MainConfig) (ex ey ez : Nat)
    (palette : List Block) (block_data : List VoxelEntry)
    (hent : ∀ e ∈ block_data, e.nbt.isSome → e.ns.isSome ∧ e.base_name.isSome) :
    ∃ w, runConversion cfg ex ey ez palette block_data = .ok w ∧
      w.set_block_calls = setBlockCoords cfg ex ey ez := by
  obtain ⟨w', hw', hlog⟩ := mainLoop_ok cfg ex ey ez palette block_data hent initialWorld
  refine ⟨w'.save, ?_, ?_⟩
  · rw [runConversion, hw']
    rfl
  · show w'.set_block_calls = setBlockCoords cfg ex ey ez
    rw [hlog]
    rfl

theorem setBlockCoords_eq_map_product (cfg : MainConfig) (ex ey ez : Nat) :
    setBlockCoords cfg ex ey ez
      = ((List.range ey) ×ˢ ((List.range ex) ×ˢ (List.range ez))).map
          (fun t => ((t.2.1 : Int) + cfg.base_x, (t.1 : Int) + cfg.base_y,
            (t.2.2 : Int) + cfg.base_z)) := by
  simp [setBlockCoords, SProd.sprod, List.product, List.map_flatMap, List.map_map,
    Function.comp_def, flatMap_singleton_eq_map]

theorem coordsFun_injective (cfg : MainConfig) :
    Function.Injective (fun t : Nat × Nat × Nat =>
      ((t.2.1 : Int) + cfg.base_x, (t.1 : Int) + cfg.base_y, (t.2.2 : Int) + cfg.base_z)) := by
  rintro ⟨y, x, z⟩ ⟨y', x', z'⟩ h
  simp only [Prod.mk.injEq] at h ⊢
  omega

theorem setBlockCoords_nodup (cfg : MainConfig) (ex ey ez : Nat) :
    (setBlockCoords cfg ex ey ez).Nodup := by
  rw [setBlockCoords_eq_map_product]
  exact List.Nodup.map (coordsFun_injective cfg)
    (List.Nodup.product (List.nodup_range _) (List.Nodup.product (List.nodup_range _) (List.nodup_range _)))

theorem setBlockCoords_length (cfg : MainConfig) (ex ey ez : Nat) :
    (setBlockCoords cfg ex ey ez).length = ex * ey * ez := by
  rw [setBlockCoords_eq_map_product, List.length_map, List.length_product,
    List.length_product, List.length_range, List.length_range, List.length_range]
  ring

theorem mem_setBlockCoords (cfg : MainConfig) (ex ey ez : Nat) (p : Int × Int × Int) :
    p ∈ setBlockCoords cfg ex ey ez ↔
      (cfg.base_x ≤ p.1 ∧ p.1 < cfg.base_x + ex ∧
       cfg.base_y ≤ p.2.1 ∧ p.2.1 < cfg.base_y + ey ∧
       cfg.base_z ≤ p.2.2 ∧ p.2.2 < cfg.base_z + ez) := by
  obtain ⟨p1, p2, p3⟩ := p
  rw [setBlockCoords_eq_map_product]
  simp only [List.mem_map]
  constructor
  · rintro ⟨⟨y, x, z⟩, ht, heq⟩
    simp only [List.mem_product, List.mem_range] at ht
    obtain ⟨hy, hx, hz⟩ := ht
    simp only [Prod.mk.injEq] at heq
    obtain ⟨h1, h2, h3⟩ := heq
    refine ⟨?_, ?_, ?_, ?_, ?_, ?_⟩ <;> omega
  · rintro ⟨h1, h2, h3, h4, h5, h6⟩
    refine ⟨((p2 - cfg.base_y).toNat, (p1 - cfg.base_x).toNat, (p3 - cfg.base_z).toNat),
      ?_, ?_⟩
    · simp only [List.mem_product, List.mem_range]
      refine ⟨?_, ?_, ?_⟩ <;> omega
    · simp only [Prod.mk.injEq]
      refine ⟨?_, ?_, ?_⟩ <;> omega

/-- A two-voxel input for extents 2x1x1 whose first entry carries `nbt`
metadata but no `namespace` or `base_name` field: its palette index is in
range and the array length matches the extents, yet the run aborts on
it. -/
def c1Entries : List VoxelEntry :=
  [{ pi := 0, nbt := some [], ns := none, base_name := none },
   { pi := 0, nbt := none, ns := none, base_name := none }]

/-- C1 counterexample: an input satisfying the claim's validity
hypotheses (palette index in range, blocks array of length ex*ey*ez = 2)
on which the conversion run aborts with a `KeyError` at the
`block_info["namespace"]` access after the first voxel's block write, so
it performs 1 `set_block` call, not ex*ey*ez = 2. -/
theorem c1_counterexample :
    c1Entries.length = 2 * 1 * 1 ∧
    (∀ e ∈ c1Entries, e.pi < [BEDROCK].length) ∧
    runAborted (runConversion ⟨0, 3, 0⟩ 2 1 1 [BEDROCK] c1Entries) = true ∧
    (runResultState
        (runConversion ⟨0, 3, 0⟩ 2 1 1 [BEDROCK] c1Entries)).set_block_calls.length = 1 ∧
    (1 : Nat) ≠ 2 * 1 * 1 :=
  ⟨rfl, by decide, rfl, rfl, by decide⟩

/-- C1 (amended): for every valid input (palette indices in range,
blocks array of length ex*ey*ez) in which, additionally, every voxel
entry that carries `nbt` metadata also carries its `namespace` and
`base_name` fields, the conversion run completes without aborting and
performs exactly ex*ey*ez `set_block` calls, the set of absolute
coordinates written being exactly the integer cuboid
[baseX, baseX+ex) x [baseY, baseY+ey) x [baseZ, baseZ+ez), each written
exactly once (the call list has no duplicates and its members are
exactly the cuboid). -/
theorem c1_cuboid_coverage (cfg : MainConfig) (ex ey ez : Nat) (palette : List Block)
    (block_data : List VoxelEntry)
    (_hlen : block_data.length = ex * ey * ez)
    (_hpi : ∀ e ∈ block_data, e.pi < palette.length)
    (hent : ∀ e ∈ block_data, e.nbt.isSome → e.ns.isSome ∧ e.base_name.isSome) :
    ∃ w : WorldWrapper,
      runConversion cfg ex ey ez palette block_data = .ok w ∧
      w.set_block_calls.length = ex * ey * ez ∧
      w.set_block_calls.Nodup ∧
      ∀ p : Int × Int × Int,
        p ∈ w.set_block_calls ↔
          (cfg.base_x ≤ p.1 ∧ p.1 < cfg.base_x + ex ∧
           cfg.base_y ≤ p.2.1 ∧ p.2.1 < cfg.base_y + ey ∧
           cfg.base_z ≤ p.2.2 ∧ p.2.2 < cfg.base_z + ez) := by
  obtain ⟨w, hw, hlog⟩ := runConversion_ok cfg ex ey ez palette block_data hent
  refine ⟨w, hw, ?_, ?_, ?_⟩ <;> rw [hlog]
  · exact setBlockCoords_length cfg ex ey ez
  · exact setBlockCoords_nodup cfg ex ey ez
  · exact mem_setBlockCoords cfg ex ey ez

/-- C1 witness: the coverage statement for the 1x1x1 end-to-end scenario
(palette `[bedrock]`, one voxel with palette index 0 and no metadata,
base (0, 3, 0)). -/
theorem c1_witness :
    (([⟨0, none, none, none⟩] : List VoxelEntry).length = 1 * 1 * 1 ∧
      (∀ e ∈ ([⟨0, none, none, none⟩] : List VoxelEntry), e.pi < [BEDROCK].length) ∧
      (∀ e ∈ ([⟨0, none, none, none⟩] : List VoxelEntry),
        e.nbt.isSome → e.ns.isSome ∧ e.base_name.isSome)) ∧
    ∃ w : WorldWrapper,
      runConversion ⟨0, 3, 0⟩ 1 1 1 [BEDROCK] [⟨0, none, none, none⟩] = .ok w ∧
      w.set_block_calls.length = 1 * 1 * 1 ∧
      w.set_block_calls.Nodup ∧
      ∀ p : Int × Int × Int,
        p ∈ w.set_block_calls ↔
          ((0 : Int) ≤ p.1 ∧ p.1 < (0 : Int) + (1 : Nat) ∧
           (3 : Int) ≤ p.2.1 ∧ p.2.1 < (3 : Int) + (1 : Nat) ∧
           (0 : Int) ≤ p.2.2 ∧ p.2.2 < (0 : Int) + (1 : Nat)) :=
  ⟨⟨by decide, by decide, by decide⟩,
    c1_cuboid_coverage ⟨0, 3, 0⟩ 1 1 1 [BEDROCK] [⟨0, none, none, none⟩]
      (by decide) (by decide) (by decide)⟩

/-! ### The grid walker: emission order and index pairing -/

/-- The sequence of `(x, y, z, entry)` quadruples processed by the loop
nest of `main` (convert.py lines 115-119): `for y: for x: for z`, each
cell paired with `block_data[x + z*ex + y*ex*ez]`. -/
def gridWalk (ex ey ez : Nat) (block_data : List VoxelEntry) :
    List (Nat × Nat × Nat × VoxelEntry) :=
  (List.range ey).flatMap fun (y : Nat) =>
    (List.range ex).flatMap fun (x : Nat) =>
      (List.range ez).map fun (z : Nat) =>
        (x, y, z, block_data.getD (x + z * ex + y * ex * ez) defaultEntry)

/-- The coordinate order the walker actually uses: y slowest, x in the
middle, z fastest. -/
def walkCoords (ex ey ez : Nat) : List (Nat × Nat × Nat) :=
  (List.range ey).flatMap fun (y : Nat) =>
    (List.range ex).flatMap fun (x : Nat) =>
      (List.range ez).map fun (z : Nat) => (x, y, z)

/-- The coordinate order asserted by the claim, modelled from the spec's
words: y varies slowest and x varies fastest (so z sits in the middle). -/
def xFastestCoords (ex ey ez : Nat) : List (Nat × Nat × Nat) :=
  (List.range ey).flatMap fun (y : Nat) =>
    (List.range ez).flatMap fun (z : Nat) =>
      (List.range ex).map fun (x : Nat) => (x, y, z)

theorem gridWalk_coords (ex ey ez : Nat) (block_data : List VoxelEntry) :
    (gridWalk ex ey ez block_data).map (fun q => (q.1, q.2.1, q.2.2.1))
      = walkCoords ex ey ez := by
  simp [gridWalk, walkCoords, List.map_flatMap, List.map_map, Function.comp_def]

theorem walkCoords_eq_map_product (ex ey ez : Nat) :
    walkCoords ex ey ez
      = ((List.range ey) ×ˢ ((List.range ex) ×ˢ (List.range ez))).map
          (fun t => (t.2.1, t.1, t.2.2)) := by
  simp [walkCoords, SProd.sprod, List.product, List.map_flatMap, List.map_map,
    Function.comp_def]

theorem walkCoordsFun_injective :
    Function.Injective (fun t : Nat × Nat × Nat => (t.2.1, t.1, t.2.2)) := by
  rintro ⟨y, x, z⟩ ⟨y', x', z'⟩ h
  simp only [Prod.mk.injEq] at h ⊢
  tauto

theorem walkCoords_nodup (ex ey ez : Nat) : (walkCoords ex ey ez).Nodup := by
  rw [walkCoords_eq_map_product]
  exact List.Nodup.map walkCoordsFun_injective
    (List.Nodup.product (List.nodup_range _)
      (List.Nodup.product (List.nodup_range _) (List.nodup_range _)))

theorem mem_walkCoords (ex ey ez : Nat) (c : Nat × Nat × Nat) :
    c ∈ walkCoords ex ey ez ↔ c.1 < ex ∧ c.2.1 < ey ∧ c.2.2 < ez := by
  obtain ⟨c1, c2, c3⟩ := c
  rw [walkCoords_eq_map_product]
  simp only [List.mem_map]
  constructor
  · rintro ⟨⟨y, x, z⟩, ht, heq⟩
    simp only [List.mem_product, List.mem_range] at ht
    simp only [Prod.mk.injEq] at heq
    obtain ⟨h1, h2, h3⟩ := heq
    subst h1
    subst h2
    subst h3
    exact ⟨ht.2.1, ht.1, ht.2.2⟩
  · rintro ⟨h1, h2, h3⟩
    refine ⟨(c2, c1, c3), ?_, rfl⟩
    simp only [List.mem_product, List.mem_range]
    exact ⟨h2, h1, h3⟩

theorem walkCoords_length (ex ey ez : Nat) :
    (walkCoords ex ey ez).length = ex * ey * ez := by
  rw [walkCoords_eq_map_product, List.length_map, List.length_product,
    List.length_product, List.length_range, List.length_range, List.length_range]
  ring

/-- C9 counterexample: the walker does not emit cells with x varying
fastest: with extents ex = 2, ey = 1, ez = 2 the walker's coordinate
sequence is [(0,0,0), (0,0,1), (1,0,0), (1,0,1)] (z fastest), not the
claimed y-slowest/x-fastest order [(0,0,0), (1,0,0), (0,0,1), (1,0,1)]. -/
theorem c9_counterexample :
    (gridWalk 2 1 2 (List.replicate 4 defaultEntry)).map (fun q => (q.1, q.2.1, q.2.2.1))
      ≠ xFastestCoords 2 1 2 := by
  decide

/-- C9 (amended): the grid walker emits a finite sequence of (x, y, z,
entry) quadruples covering every cell of the extents cuboid exactly once,
in an order where y varies slowest and z (not x) varies fastest, each
quadruple paired with the array entry at linear index
x + z*ex + y*ex*ez. -/
theorem c9_grid_walk (ex ey ez : Nat) (block_data : List VoxelEntry) :
    ((gridWalk ex ey ez block_data).map (fun q => (q.1, q.2.1, q.2.2.1))).Nodup ∧
    (∀ c : Nat × Nat × Nat,
      c ∈ (gridWalk ex ey ez block_data).map (fun q => (q.1, q.2.1, q.2.2.1)) ↔
        c.1 < ex ∧ c.2.1 < ey ∧ c.2.2 < ez) ∧
    (gridWalk ex ey ez block_data).length = ex * ey * ez ∧
    ((gridWalk ex ey ez block_data).map (fun q => (q.1, q.2.1, q.2.2.1))
      = walkCoords ex ey ez) ∧
    (∀ q ∈ gridWalk ex ey ez block_data,
      q.2.2.2 = block_data.getD (q.1 + q.2.2.1 * ex + q.2.1 * ex * ez) defaultEntry) := by
  refine ⟨?_, ?_, ?_, gridWalk_coords ex ey ez block_data, ?_⟩
  · rw [gridWalk_coords]
    exact walkCoords_nodup ex ey ez
  · intro c
    rw [gridWalk_coords]
    exact mem_walkCoords ex ey ez c
  · have h := congrArg List.length (gridWalk_coords ex ey ez block_data)
    rw [List.length_map] at h
    rw [h]
    exact walkCoords_length ex ey ez
  · intro q hq
    simp only [gridWalk, List.mem_flatMap, List.mem_map, List.mem_range] at hq
    obtain ⟨y, -, x, -, z, -, rfl⟩ := hq
    rfl

/-- C9 witness: coverage and pairing at the concrete extents (2, 1, 2)
with four default entries; the mem-iff specialized at the cell (0, 0, 1)
and the length computed. -/
theorem c9_witness :
    (((0, 0, 1) ∈ (gridWalk 2 1 2 (List.replicate 4 defaultEntry)).map
        (fun q => (q.1, q.2.1, q.2.2.1)) ↔ 0 < 2 ∧ 0 < 1 ∧ 1 < 2) ∧
    (gridWalk 2 1 2 (List.replicate 4 defaultEntry)).length = 2 * 1 * 2) :=
  ⟨(c9_grid_walk 2 1 2 (List.replicate 4 defaultEntry)).2.1 (0, 0, 1),
    (c9_grid_walk 2 1 2 (List.replicate 4 defaultEntry)).2.2.1⟩

end Convert
